import Mathlib

/-!
Verification of the technician-booking backend.

The development shallowly embeds the Python sources:
  - app/services/booking_service.py   (store, create, delete, cancel)
  - app/services/validation.py        (validate_booking_time, validate_profession)
  - app/core/initial_data.py          (load_initial_data)
  - app/utils/datetime_utils.py       (BusinessHours, DateTimeExtractor)
  - app/services/nlp_service.py       (intent classification, booking-id and
                                       time extraction)

Machine datetimes are modelled at minute resolution, as natural numbers
counting minutes since 1970-01-01 00:00 (a Thursday).  All service code under
study compares, adds whole hours/days to, or reads hour/minute fields of
datetimes, so minute resolution is faithful for every property below.
-/

namespace TechBooking

/-! ## Time model -/

/-- Minutes since 1970-01-01 00:00. -/
abbrev DateTime := Nat

def minutesPerDay : Nat := 1440

/-- Python `dt.hour`. -/
def hourOf (t : DateTime) : Nat := t / 60 % 24

/-- Python `dt.minute`. -/
def minuteOf (t : DateTime) : Nat := t % 60

/-- Calendar-day index of a datetime (Python `dt.date()`, as a day count). -/
def dayOf (t : DateTime) : Nat := t / minutesPerDay

/-- Python `dt.weekday()`: Monday = 0 .. Sunday = 6.  1970-01-01 was a
Thursday, hence the offset 3. -/
def weekdayOf (t : DateTime) : Nat := (dayOf t + 3) % 7

/-- Python `dt.replace(hour := h, minute := m)` (at minute resolution). -/
def replaceTime (t : DateTime) (h m : Nat) : DateTime :=
  dayOf t * minutesPerDay + h * 60 + m

/-- Python `dt.replace(minute := 0, second := 0, microsecond := 0)`. -/
def zeroMinute (t : DateTime) : DateTime := t / 60 * 60

/-- Days since 1970-01-01 of a Gregorian civil date (standard civil-calendar
day-number algorithm); used only to name the concrete dates appearing in
`initial_data.py` and in witnesses. -/
def daysFromCivil (y m d : Nat) : Int :=
  let yi : Int := y
  let mi : Int := m
  let di : Int := d
  let yi := yi - (if mi ≤ 2 then 1 else 0)
  let era := yi / 400
  let yoe := yi - era * 400
  let doy := (153 * (mi + (if mi > 2 then -3 else 9)) + 2) / 5 + di - 1
  let doe := yoe * 365 + yoe / 4 - yoe / 100 + doy
  era * 146097 + doe - 719468

/-- Minutes since epoch of a civil date-time `y-m-d h:mi`. -/
def mkDateTime (y m d h mi : Nat) : DateTime :=
  ((daysFromCivil y m d) * minutesPerDay + h * 60 + mi).toNat

/-! ## BusinessHours (app/utils/datetime_utils.py) -/

namespace BusinessHours

def OPEN_HOUR : Nat := 9
def CLOSE_HOUR : Nat := 17

/-- `BusinessHours.is_within_hours`. -/
def is_within_hours (dt : DateTime) : Bool :=
  decide (OPEN_HOUR ≤ hourOf dt ∧ hourOf dt < CLOSE_HOUR)

/-- `BusinessHours.adjust_to_business_hours(dt, strict)`.  The strict branch
raises `BusinessHoursError`, modelled as the error case. -/
def adjust_to_business_hours (dt : DateTime) (strict : Bool) :
    Except Unit DateTime :=
  if is_within_hours dt then .ok dt
  else if strict then .error ()
  else if hourOf dt < OPEN_HOUR then .ok (replaceTime dt OPEN_HOUR 0)
  else .ok (replaceTime (dt + minutesPerDay) OPEN_HOUR 0)

/-- The non-strict adjustment as a total function (the `strict=False` call
sites in the sources never observe an exception). -/
def adjustNonStrict (dt : DateTime) : DateTime :=
  if is_within_hours dt then dt
  else if hourOf dt < OPEN_HOUR then replaceTime dt OPEN_HOUR 0
  else replaceTime (dt + minutesPerDay) OPEN_HOUR 0

theorem adjust_false_eq_nonStrict (dt : DateTime) :
    adjust_to_business_hours dt false = .ok (adjustNonStrict dt) := by
  unfold adjust_to_business_hours adjustNonStrict
  by_cases h : is_within_hours dt = true
  · simp [h]
  · simp [h]
    by_cases h2 : hourOf dt < OPEN_HOUR <;> simp [h2]

end BusinessHours

theorem hourOf_replaceTime (t : DateTime) (h m : Nat) (hh : h < 24)
    (hm : m < 60) : hourOf (replaceTime t h m) = h := by
  unfold hourOf replaceTime dayOf minutesPerDay
  omega

theorem minuteOf_replaceTime (t : DateTime) (h m : Nat) (hm : m < 60) :
    minuteOf (replaceTime t h m) = m := by
  unfold minuteOf replaceTime dayOf minutesPerDay
  omega

theorem hourOf_addDay (t : DateTime) : hourOf (t + minutesPerDay) = hourOf t := by
  unfold hourOf minutesPerDay
  omega

theorem minuteOf_addDay (t : DateTime) :
    minuteOf (t + minutesPerDay) = minuteOf t := by
  unfold minuteOf minutesPerDay
  omega

theorem BusinessHours.within_adjustNonStrict (dt : DateTime) :
    BusinessHours.OPEN_HOUR ≤ hourOf (BusinessHours.adjustNonStrict dt) ∧
      hourOf (BusinessHours.adjustNonStrict dt) < BusinessHours.CLOSE_HOUR := by
  unfold BusinessHours.adjustNonStrict
  by_cases h : BusinessHours.is_within_hours dt = true
  · simp only [h, if_true]
    have := of_decide_eq_true h
    exact this
  · simp only [h, if_false, Bool.false_eq_true]
    by_cases h2 : hourOf dt < BusinessHours.OPEN_HOUR
    · simp only [h2, if_true]
      rw [hourOf_replaceTime _ _ _ (by norm_num [BusinessHours.OPEN_HOUR]) (by norm_num)]
      norm_num [BusinessHours.OPEN_HOUR, BusinessHours.CLOSE_HOUR]
    · simp only [h2, if_false]
      rw [hourOf_replaceTime _ _ _ (by norm_num [BusinessHours.OPEN_HOUR]) (by norm_num)]
      norm_num [BusinessHours.OPEN_HOUR, BusinessHours.CLOSE_HOUR]

/-! ## Strings: ASCII lower-casing (Python `str.lower()` on the ASCII inputs
used throughout the service layer) -/

def asciiLowerChar (c : Char) : Char :=
  if 'A' ≤ c ∧ c ≤ 'Z' then Char.ofNat (c.toNat + 32) else c

def lowerStr (s : String) : String := String.mk (s.data.map asciiLowerChar)

/-! ## Data model (app/models/booking.py, app/schemas/booking.py) -/

/-- `app.models.booking.Booking` (dataclass). -/
structure Booking where
  id : String
  customer_name : String
  technician_name : String
  profession : String
  start_time : DateTime
  end_time : DateTime
deriving DecidableEq

/-- `app.schemas.booking.BookingCreate`: note there is no `end_time` field;
callers cannot supply one. -/
structure BookingCreate where
  customer_name : String
  technician_name : String
  profession : String
  start_time : DateTime
deriving DecidableEq

/-- The in-memory store `in_memory_bookings_db : Dict[str, Booking]`, as an
insertion-ordered association list keyed by booking id. -/
abbrev Store := List (String × Booking)

/-- Error kinds raised (as `ValueError`s) by the service layer. -/
inductive BookingError where
  | unsupportedProfession
  | pastBooking
  | badDuration
  | conflict
deriving DecidableEq

deriving instance DecidableEq for Except

/-! ## validation.py -/

/-- Keys of `settings.PROFESSION_KEYWORDS` (app/config/settings.py). -/
def professionKeys : List String :=
  ["plumber", "welder", "electrician", "carpenter", "mechanic", "painter",
   "chef", "gardener", "teacher", "developer", "nurse"]

/-- `validation.validate_profession`. -/
def validate_profession (profession : String) : Except BookingError Unit :=
  if (professionKeys.map lowerStr).contains (lowerStr profession) then .ok ()
  else .error .unsupportedProfession

/-- The overlap test of `validation.validate_booking_time` and
`booking_service.create_booking`:
`not (end_time <= booking.start_time or start_time >= booking.end_time)`. -/
def overlapsBooking (start_time end_time : DateTime) (b : Booking) : Bool :=
  !(decide (end_time ≤ b.start_time) || decide (start_time ≥ b.end_time))

/-- `validation.validate_booking_time(start_time, end_time, technician_name,
existing_bookings, system_init)`. -/
def validate_booking_time (start_time : DateTime) (end_time : Option DateTime)
    (technician_name : Option String) (existing_bookings : Option Store)
    (system_init : Bool) (now : DateTime) : Except BookingError Unit :=
  if !system_init && decide (start_time < now) then .error .pastBooking
  else
    let calculated_end_time := start_time + 60
    if (end_time.map (fun e => decide (e ≠ calculated_end_time))).getD false then
      .error .badDuration
    else
      let end_time := end_time.getD calculated_end_time
      match technician_name, existing_bookings with
      | some tech, some db =>
        if db.any (fun p =>
            lowerStr p.2.technician_name == lowerStr tech &&
            overlapsBooking start_time end_time p.2) then
          .error .conflict
        else .ok ()
      | _, _ => .ok ()

/-! ## booking_service.py -/

/-- The conflict scan of `booking_service.create_booking` (the loop over
`in_memory_bookings_db.values()`). -/
def hasConflict (technician_name : String) (start_time end_time : DateTime)
    (db : Store) : Bool :=
  db.any (fun p =>
    lowerStr p.2.technician_name == lowerStr technician_name &&
    overlapsBooking start_time end_time p.2)

/-- `booking_service.create_booking`.  `now` stands for `datetime.now()` at
call time and `newId` for the freshly generated `uuid4` of the new booking. -/
def create_booking (now : DateTime) (newId : String) (booking_data : BookingCreate)
    (db : Store) : Except BookingError (Booking × Store) :=
  match validate_profession booking_data.profession with
  | .error e => .error e
  | .ok _ =>
    match validate_booking_time booking_data.start_time
        (some (booking_data.start_time + 60)) none none false now with
    | .error e => .error e
    | .ok _ =>
      if hasConflict booking_data.technician_name booking_data.start_time
          (booking_data.start_time + 60) db then
        .error .conflict
      else
        .ok (⟨newId, booking_data.customer_name, booking_data.technician_name,
               booking_data.profession, booking_data.start_time,
               booking_data.start_time + 60⟩,
             db ++ [(newId, ⟨newId, booking_data.customer_name,
               booking_data.technician_name, booking_data.profession,
               booking_data.start_time, booking_data.start_time + 60⟩)])

/-- `booking_service.delete_booking_by_id`. -/
def delete_booking_by_id (booking_id : String) (db : Store) : Bool × Store :=
  if (db.lookup booking_id).isSome then
    (true, db.eraseP (fun p => p.1 == booking_id))
  else (false, db)

/-- `booking_service.cancel_booking` (delegates to `delete_booking_by_id`). -/
def cancel_booking (booking_id : String) (db : Store) : Bool × Store :=
  delete_booking_by_id booking_id db

/-! ## initial_data.py -/

/-- The three seed requests of `initial_data.load_initial_data`, with the
`dateutil` parses of their literal date strings. -/
def initialBookings : List BookingCreate :=
  [⟨"Nicolas Woollett", "Nicolas Woollett", "Plumber", mkDateTime 2022 10 15 10 0⟩,
   ⟨"Franky Flay", "Franky Flay", "Electrician", mkDateTime 2022 10 16 18 0⟩,
   ⟨"Griselda Dickson", "Griselda Dickson", "Welder", mkDateTime 2022 10 18 11 0⟩]

/-- `initial_data.load_initial_data`: if the store is non-empty it returns
immediately, otherwise it creates the three seed bookings through
`create_booking` (which is called without any bypass flag); the first raised
error aborts the whole seeding.  `ids` supplies the fresh uuid per insert. -/
def load_initial_data (now : DateTime) (ids : List String) (db : Store) :
    Except BookingError Store :=
  if !db.isEmpty then .ok db
  else
    (initialBookings.zip ids).foldlM
      (fun acc p => (create_booking now p.2 p.1 acc).map Prod.snd) db

/-! ## Reachable stores

A store is reachable when it is produced from the empty store by any sequence
of create and cancel operations (each with its own `now`); a failed create
raises and leaves the store untouched, so only successful creates appear.
The `lookup newId = none` premise records that `uuid4` ids are fresh. -/

inductive Reachable : Store → Prop where
  | init : Reachable []
  | create {db : Store} {now : DateTime} {newId : String} {bd : BookingCreate}
      {b : Booking} {db' : Store} :
      Reachable db → db.lookup newId = none →
      create_booking now newId bd db = .ok (b, db') → Reachable db'
  | cancel {db : Store} (booking_id : String) :
      Reachable db → Reachable (delete_booking_by_id booking_id db).2

/-- Case-insensitive technician-name agreement. -/
def sameTech (a b : Booking) : Prop :=
  lowerStr a.technician_name = lowerStr b.technician_name

/-- Half-open intervals `[start_time, end_time)` do not intersect. -/
def disjointIntervals (a b : Booking) : Prop :=
  a.end_time ≤ b.start_time ∨ b.end_time ≤ a.start_time

/-- No two distinct bookings of one technician (case-insensitive) overlap. -/
def NoOverlap (db : Store) : Prop :=
  (db.map Prod.snd).Pairwise (fun a b => sameTech a b → disjointIntervals a b)

/-! ## Inversion lemmas for `create_booking` -/

theorem vbt_create (start now : DateTime) :
    validate_booking_time start (some (start + 60)) none none false now =
      if start < now then .error .pastBooking else .ok () := by
  unfold validate_booking_time
  by_cases h : start < now <;> simp [h]

theorem create_booking_ok_elim {now : DateTime} {newId : String}
    {bd : BookingCreate} {db : Store} {b : Booking} {db' : Store}
    (h : create_booking now newId bd db = .ok (b, db')) :
    validate_profession bd.profession = .ok () ∧ ¬ bd.start_time < now ∧
    hasConflict bd.technician_name bd.start_time (bd.start_time + 60) db = false ∧
    b = ⟨newId, bd.customer_name, bd.technician_name, bd.profession,
          bd.start_time, bd.start_time + 60⟩ ∧
    db' = db ++ [(newId, b)] := by
  unfold create_booking at h
  rw [vbt_create] at h
  rcases hvp : validate_profession bd.profession with e | u
  · rw [hvp] at h; exact absurd h (by simp)
  · cases u
    rw [hvp] at h
    by_cases hlt : bd.start_time < now
    · rw [if_pos hlt] at h; exact absurd h (by simp)
    · rw [if_neg hlt] at h
      by_cases hc : hasConflict bd.technician_name bd.start_time
          (bd.start_time + 60) db = true
      · rw [if_pos hc] at h; exact absurd h (by simp)
      · rw [if_neg hc] at h
        simp only [Except.ok.injEq, Prod.mk.injEq] at h
        refine ⟨rfl, hlt, by simpa using hc, h.1.symm, ?_⟩
        rw [← h.2, ← h.1]

theorem create_booking_ok_intro {now : DateTime} {newId : String}
    {bd : BookingCreate} {db : Store}
    (hvp : validate_profession bd.profession = .ok ())
    (hlt : ¬ bd.start_time < now)
    (hc : hasConflict bd.technician_name bd.start_time (bd.start_time + 60) db
            = false) :
    create_booking now newId bd db =
      .ok (⟨newId, bd.customer_name, bd.technician_name, bd.profession,
             bd.start_time, bd.start_time + 60⟩,
           db ++ [(newId, ⟨newId, bd.customer_name, bd.technician_name,
             bd.profession, bd.start_time, bd.start_time + 60⟩)]) := by
  unfold create_booking
  rw [vbt_create, hvp, if_neg hlt, if_neg (by simp [hc])]

theorem create_booking_conflict {now : DateTime} {newId : String}
    {bd : BookingCreate} {db : Store}
    (hvp : validate_profession bd.profession = .ok ())
    (hlt : ¬ bd.start_time < now)
    (hc : hasConflict bd.technician_name bd.start_time (bd.start_time + 60) db
            = true) :
    create_booking now newId bd db = .error .conflict := by
  unfold create_booking
  rw [vbt_create, hvp, if_neg hlt, if_pos hc]

/-- The overlap test, read as a proposition. -/
theorem overlapsBooking_eq_false_iff (s e : DateTime) (b : Booking) :
    overlapsBooking s e b = false ↔ (e ≤ b.start_time ∨ b.end_time ≤ s) := by
  unfold overlapsBooking
  simp only [Bool.not_eq_false', Bool.or_eq_true, decide_eq_true_eq, ge_iff_le]

/-- The conflict scan, read booking by booking. -/
theorem hasConflict_eq_false_iff (tech : String) (s e : DateTime) (db : Store) :
    hasConflict tech s e db = false ↔
      ∀ p ∈ db, lowerStr p.2.technician_name = lowerStr tech →
        (e ≤ p.2.start_time ∨ p.2.end_time ≤ s) := by
  unfold hasConflict
  rw [List.any_eq_false]
  constructor
  · intro h p hp hteq
    have hpp := h p hp
    cases hov : overlapsBooking s e p.2 with
    | false => exact (overlapsBooking_eq_false_iff s e p.2).mp hov
    | true => exact absurd (by simp [hteq, hov]) hpp
  · intro h p hp hcontra
    rw [Bool.and_eq_true, beq_iff_eq] at hcontra
    obtain ⟨hteq, hov⟩ := hcontra
    have := (overlapsBooking_eq_false_iff s e p.2).mpr (h p hp hteq)
    rw [this] at hov
    cases hov

/-! ## Store invariants -/

theorem reachable_noOverlap {db : Store} (h : Reachable db) : NoOverlap db := by
  induction h with
  | init => exact List.Pairwise.nil
  | @create db now newId bd b db' _ hfresh hcr ih =>
      obtain ⟨_, _, hconf, hb, hdb'⟩ := create_booking_ok_elim hcr
      subst hdb'
      unfold NoOverlap at *
      rw [List.map_append, List.pairwise_append]
      refine ⟨ih, by simp, ?_⟩
      intro a ha b' hb' hst
      simp only [List.map_cons, List.map_nil, List.mem_singleton] at hb'
      subst hb'
      rw [List.mem_map] at ha
      obtain ⟨p, hp, rfl⟩ := ha
      have := (hasConflict_eq_false_iff _ _ _ _).mp hconf p hp
      unfold sameTech at hst
      rw [hb] at hst
      have hdisj := this hst
      unfold disjointIntervals
      rw [hb]
      tauto
  | @cancel db booking_id _ ih =>
      unfold NoOverlap at *
      unfold delete_booking_by_id
      by_cases hmem : (db.lookup booking_id).isSome
      · simp only [hmem, if_true]
        exact ih.sublist ((db.eraseP_sublist).map Prod.snd)
      · simp only [hmem, if_false, Bool.false_eq_true]
        exact ih

theorem reachable_one_hour {db : Store} (h : Reachable db) :
    ∀ p ∈ db, p.2.end_time = p.2.start_time + 60 := by
  induction h with
  | init => intro p hp; cases hp
  | @create db now newId bd b db' _ hfresh hcr ih =>
      obtain ⟨_, _, _, hb, hdb'⟩ := create_booking_ok_elim hcr
      subst hdb'
      intro p hp
      rcases List.mem_append.mp hp with hold | hnew
      · exact ih p hold
      · simp only [List.mem_singleton] at hnew
        subst hnew
        rw [hb]
  | @cancel db booking_id _ ih =>
      intro p hp
      unfold delete_booking_by_id at hp
      by_cases hmem : (db.lookup booking_id).isSome
      · simp only [hmem, if_true] at hp
        exact ih p (db.eraseP_sublist.mem hp)
      · simp only [hmem, if_false, Bool.false_eq_true] at hp
        exact ih p hp

/-! ## Association-list (dict) lemmas -/

theorem lookup_isSome_iff (db : Store) (booking_id : String) :
    (db.lookup booking_id).isSome = true ↔ booking_id ∈ db.map Prod.fst := by
  induction db with
  | nil => simp [List.lookup]
  | cons p t ih =>
      obtain ⟨k, v⟩ := p
      simp only [List.lookup, List.map_cons, List.mem_cons]
      cases hk : booking_id == k with
      | true =>
          rw [beq_iff_eq] at hk
          simp [hk]
      | false =>
          rw [beq_eq_false_iff_ne] at hk
          simp only [ih]
          constructor
          · exact fun h => Or.inr h
          · rintro (h | h)
            · exact absurd h hk
            · exact h

theorem lookup_eraseP_self (db : Store) (booking_id : String)
    (hnd : (db.map Prod.fst).Nodup) :
    ((db.eraseP (fun p => p.1 == booking_id)).lookup booking_id) = none := by
  induction db with
  | nil => rfl
  | cons p t ih =>
      obtain ⟨k, v⟩ := p
      rw [List.map_cons, List.nodup_cons] at hnd
      simp only [List.eraseP_cons]
      cases hk : k == booking_id with
      | true =>
          rw [beq_iff_eq] at hk
          simp only [cond_true]
          subst hk
          cases hl : List.lookup k t with
          | none => rfl
          | some b =>
              have : k ∈ t.map Prod.fst := by
                rw [← lookup_isSome_iff, hl]; rfl
              exact absurd this hnd.1
      | false =>
          simp only [cond_false, List.lookup]
          have hk2 : (booking_id == k) = false := by
            rw [beq_eq_false_iff_ne]
            rw [beq_eq_false_iff_ne] at hk
            exact fun h => hk h.symm
          rw [hk2]
          exact ih hnd.2

theorem lookup_eraseP_ne (db : Store) (booking_id k : String)
    (hne : k ≠ booking_id) :
    (db.eraseP (fun p => p.1 == booking_id)).lookup k = db.lookup k := by
  induction db with
  | nil => rfl
  | cons p t ih =>
      obtain ⟨k', v⟩ := p
      simp only [List.eraseP_cons]
      cases hk : k' == booking_id with
      | true =>
          rw [beq_iff_eq] at hk
          simp only [cond_true, List.lookup]
          have hk2 : (k == k') = false := by
            rw [beq_eq_false_iff_ne, hk]
            exact hne
          rw [hk2]
      | false =>
          simp only [cond_false, List.lookup]
          cases hk2 : k == k' with
          | true => rfl
          | false => exact ih

/-! ## Claim theorems: booking store -/

/-- Claim C1: in every reachable store, distinct bookings of one technician
(case-insensitively) have non-intersecting half-open `[start_time, end_time)`
intervals; a create whose interval intersects an existing same-technician
booking fails with a conflict error (and, being a pure failure, leaves the
store unchanged), while a create that merely touches a boundary succeeds. -/
theorem no_double_booking :
    (∀ db : Store, Reachable db → NoOverlap db) ∧
    (∀ (now : DateTime) (newId : String) (bd : BookingCreate) (db : Store),
      validate_profession bd.profession = .ok () → ¬ bd.start_time < now →
      (∃ p ∈ db, lowerStr p.2.technician_name = lowerStr bd.technician_name ∧
        max bd.start_time p.2.start_time <
          min (bd.start_time + 60) p.2.end_time) →
      create_booking now newId bd db = .error .conflict) ∧
    (∀ (now : DateTime) (newId : String) (bd : BookingCreate) (db : Store),
      validate_profession bd.profession = .ok () → ¬ bd.start_time < now →
      (∀ p ∈ db, lowerStr p.2.technician_name = lowerStr bd.technician_name →
        (bd.start_time + 60 ≤ p.2.start_time ∨ p.2.end_time ≤ bd.start_time)) →
      ∃ b db', create_booking now newId bd db = .ok (b, db') ∧
        db' = db ++ [(newId, b)]) := by
  refine ⟨fun db h => reachable_noOverlap h, ?_, ?_⟩
  · intro now newId bd db hvp hlt hover
    obtain ⟨p, hp, hteq, hmm⟩ := hover
    apply create_booking_conflict hvp hlt
    unfold hasConflict
    rw [List.any_eq_true]
    refine ⟨p, hp, ?_⟩
    rw [Bool.and_eq_true, beq_iff_eq]
    refine ⟨hteq, ?_⟩
    have h1 : p.2.start_time < bd.start_time + 60 :=
      lt_of_le_of_lt (le_max_right _ _) (lt_of_lt_of_le hmm (min_le_left _ _))
    have h2 : bd.start_time < p.2.end_time :=
      lt_of_le_of_lt (le_max_left _ _) (lt_of_lt_of_le hmm (min_le_right _ _))
    unfold overlapsBooking
    simp only [Bool.not_eq_true', Bool.or_eq_false_iff, decide_eq_false_iff_not,
      ge_iff_le, not_le]
    exact ⟨h1, h2⟩
  · intro now newId bd db hvp hlt hdisj
    refine ⟨_, _, create_booking_ok_intro hvp hlt
      ((hasConflict_eq_false_iff _ _ _ _).mpr hdisj), rfl⟩

/-- Claim C2: every successfully created booking (hence every booking ever
present in a reachable store) lasts exactly one hour, and its `end_time` is
computed by the engine from `start_time`; `BookingCreate` carries no
`end_time` field, so a caller cannot supply one. -/
theorem one_hour_duration :
    (∀ db : Store, Reachable db → ∀ p ∈ db, p.2.end_time = p.2.start_time + 60) ∧
    (∀ (now : DateTime) (newId : String) (bd : BookingCreate) (db : Store)
       (b : Booking) (db' : Store),
      create_booking now newId bd db = .ok (b, db') →
      b.start_time = bd.start_time ∧ b.end_time = bd.start_time + 60) := by
  refine ⟨fun db h => reachable_one_hour h, ?_⟩
  intro now newId bd db b db' h
  obtain ⟨_, _, _, hb, _⟩ := create_booking_ok_elim h
  rw [hb]
  exact ⟨rfl, rfl⟩

/-- Claim C3 (code bug): `validate_booking_time` does implement the
`system_init` bypass (first two conjuncts), but `create_booking` calls it
with the bypass permanently off and `load_initial_data` goes through
`create_booking`, so seeding the fixed 2022-dated bookings fails with the
past-booking error whenever the process starts after 2022-10-15 10:00
(third conjunct, evaluated at now = 2025-01-01 00:00).  The repository's own
test suite calls `create_booking(..., system_init=True)`, a keyword the
implementation does not accept. -/
theorem initial_data_seeding_past_bug :
    validate_booking_time (mkDateTime 2022 10 15 10 0) none none none true
        (mkDateTime 2025 1 1 0 0) = .ok () ∧
    validate_booking_time (mkDateTime 2022 10 15 10 0) none none none false
        (mkDateTime 2025 1 1 0 0) = .error .pastBooking ∧
    load_initial_data (mkDateTime 2025 1 1 0 0) ["seed-1", "seed-2", "seed-3"]
        [] = .error .pastBooking := by
  refine ⟨by decide, by decide, by decide⟩

/-- Claim C7: `cancel_booking` returns true exactly when the id is present
(removing exactly that entry: the id no longer resolves, every other id
resolves as before, and the store shrinks by one); for an absent id it
returns false with the store unchanged, so cancelling twice yields true then
false.  The `Nodup` premise is the key-uniqueness of the Python dict. -/
theorem cancel_semantics (db : Store) (booking_id : String)
    (hnd : (db.map Prod.fst).Nodup) :
    ((cancel_booking booking_id db).1 = true ↔ booking_id ∈ db.map Prod.fst) ∧
    (booking_id ∉ db.map Prod.fst → cancel_booking booking_id db = (false, db)) ∧
    (booking_id ∈ db.map Prod.fst →
      ((cancel_booking booking_id db).1 = true ∧
       (cancel_booking booking_id db).2.lookup booking_id = none ∧
       (∀ k, k ≠ booking_id →
         (cancel_booking booking_id db).2.lookup k = db.lookup k) ∧
       (cancel_booking booking_id db).2.length + 1 = db.length ∧
       cancel_booking booking_id (cancel_booking booking_id db).2 =
         (false, (cancel_booking booking_id db).2))) := by
  unfold cancel_booking delete_booking_by_id
  by_cases hmem : booking_id ∈ db.map Prod.fst
  · have hsome : (db.lookup booking_id).isSome = true :=
      (lookup_isSome_iff db booking_id).mpr hmem
    simp only [hsome, if_true]
    refine ⟨by simp [hmem], fun h => absurd hmem h, fun _ => ?_⟩
    have herased : ((db.eraseP (fun p => p.1 == booking_id)).lookup booking_id)
        = none := lookup_eraseP_self db booking_id hnd
    refine ⟨by trivial, herased,
      fun k hk => lookup_eraseP_ne db booking_id k hk, ?_, ?_⟩
    · obtain ⟨p, hp, hfst⟩ := List.mem_map.mp hmem
      have hpp : (fun q : String × Booking => q.1 == booking_id) p = true := by
        show (p.1 == booking_id) = true
        rw [hfst]
        exact beq_self_eq_true _
      have hlen : (db.eraseP (fun q : String × Booking => q.1 == booking_id)).length
          = db.length - 1 := List.length_eraseP_of_mem hp hpp
      have hpos : 0 < db.length := List.length_pos_of_mem hp
      omega
    · have : ((db.eraseP (fun p => p.1 == booking_id)).lookup booking_id).isSome
          = false := by rw [herased]; rfl
      simp only [this, Bool.false_eq_true, if_false]
  · have hnone : (db.lookup booking_id).isSome = false := by
      cases h : (db.lookup booking_id).isSome with
      | false => rfl
      | true => exact absurd ((lookup_isSome_iff db booking_id).mp h) hmem
    simp only [hnone, Bool.false_eq_true, if_false]
    exact ⟨by simp [hmem], fun _ => by trivial, fun h => absurd h hmem⟩

/-! ## Concrete demonstration data (used by the witnesses) -/

def demoNow : DateTime := mkDateTime 2025 6 2 8 0

def demoBdA : BookingCreate := ⟨"Alice", "Bob", "Plumber", mkDateTime 2025 6 2 10 0⟩

def demoBookingA : Booking :=
  ⟨"id-a", "Alice", "Bob", "Plumber", mkDateTime 2025 6 2 10 0,
    mkDateTime 2025 6 2 10 0 + 60⟩

def demoDbA : Store := [("id-a", demoBookingA)]

/-- Same technician up to case, start 10:30: overlaps 10:00-11:00. -/
def demoBdB : BookingCreate := ⟨"Carol", "BOB", "Plumber", mkDateTime 2025 6 2 10 30⟩

/-- Same technician, start exactly at the 11:00 boundary. -/
def demoBdC : BookingCreate := ⟨"Dave", "Bob", "Plumber", mkDateTime 2025 6 2 11 0⟩

theorem no_double_booking_witness :
    NoOverlap demoDbA ∧
    create_booking demoNow "id-b" demoBdB demoDbA = .error .conflict ∧
    (∃ b db', create_booking demoNow "id-c" demoBdC demoDbA = .ok (b, db') ∧
      db' = demoDbA ++ [("id-c", b)]) := by
  refine ⟨no_double_booking.1 demoDbA ?_,
    no_double_booking.2.1 demoNow "id-b" demoBdB demoDbA (by decide) (by decide)
      (by decide),
    no_double_booking.2.2 demoNow "id-c" demoBdC demoDbA (by decide) (by decide)
      (by decide)⟩
  exact Reachable.create Reachable.init (by decide)
    (by decide : create_booking demoNow "id-a" demoBdA [] =
      .ok (demoBookingA, demoDbA))

theorem one_hour_duration_witness :
    demoBookingA.start_time = demoBdA.start_time ∧
    demoBookingA.end_time = demoBdA.start_time + 60 :=
  one_hour_duration.2 demoNow "id-a" demoBdA [] demoBookingA demoDbA (by decide)

theorem cancel_semantics_witness :
    (cancel_booking "id-a" demoDbA).1 = true ∧
    cancel_booking "missing" demoDbA = (false, demoDbA) ∧
    cancel_booking "id-a" (cancel_booking "id-a" demoDbA).2 =
      (false, (cancel_booking "id-a" demoDbA).2) :=
  ⟨(cancel_semantics demoDbA "id-a" (by decide)).1.mpr (by decide),
   (cancel_semantics demoDbA "missing" (by decide)).2.1 (by decide),
   (((cancel_semantics demoDbA "id-a" (by decide)).2.2 (by decide)).2.2.2.2)⟩

/-! ## DateTimeExtractor (app/utils/datetime_utils.py) -/

/-- `DateTimeExtractor._calculate_next_occurrence(weekday_target)`, with
`now = self.current_time`. -/
def calculate_next_occurrence (now : DateTime) (weekday_target : Nat) : DateTime :=
  let current_weekday := weekdayOf now
  let days_ahead := (weekday_target + 7 - current_weekday) % 7
  let days_ahead := if days_ahead = 0 then 7 else days_ahead
  now + days_ahead * minutesPerDay

/-- `NLPService._next_weekday(now, weekday_target)` (the duplicate
implementation in nlp_service.py, using a signed difference). -/
def next_weekday (now : DateTime) (weekday_target : Nat) : DateTime :=
  let current_wday := weekdayOf now
  let diff : Int := (weekday_target : Int) - (current_wday : Int)
  let diff := if diff ≤ 0 then diff + 7 else diff
  now + diff.toNat * minutesPerDay

/-- The post-processing of `DateTimeExtractor.extract_datetime` applied to a
successfully parsed generative-model output `result` (any retry round ends
here on success): Validation 1 pushes a past instant forward by 7 days if it
is on today's date, else by 1 day; Validation 2 clamps to business hours. -/
def extract_postprocess_llm (result now : DateTime) : DateTime :=
  let result :=
    if result ≤ now then
      result + (if dayOf result = dayOf now then 7 else 1) * minutesPerDay
    else result
  if BusinessHours.is_within_hours result then result
  else BusinessHours.adjustNonStrict result

/-- `DateTimeExtractor._fallback_datetime_extraction`: `parsed` stands for
`dateutil.parser.parse(text, fuzzy=True, default=self.current_time)`. -/
def fallback_datetime_extraction (parsed now : DateTime) : DateTime :=
  let parsed := if parsed ≤ now then parsed + minutesPerDay else parsed
  BusinessHours.adjustNonStrict parsed

/-! ## Claim theorems: datetime resolution -/

/-- Claim C4: both resolution paths of `extract_datetime` (the generative
path after any retry, and the fuzzy-parse fallback) return instants whose
hour lies in `[OPEN_HOUR, CLOSE_HOUR)`; the clamp shifts a before-opening
instant to opening time the same day and an at-or-after-closing instant to
opening time the next day. -/
theorem business_hours_clamp :
    (∀ result now : DateTime,
      BusinessHours.OPEN_HOUR ≤ hourOf (extract_postprocess_llm result now) ∧
      hourOf (extract_postprocess_llm result now) < BusinessHours.CLOSE_HOUR) ∧
    (∀ parsed now : DateTime,
      BusinessHours.OPEN_HOUR ≤ hourOf (fallback_datetime_extraction parsed now) ∧
      hourOf (fallback_datetime_extraction parsed now) < BusinessHours.CLOSE_HOUR) ∧
    (∀ dt : DateTime, hourOf dt < BusinessHours.OPEN_HOUR →
      BusinessHours.adjustNonStrict dt = replaceTime dt BusinessHours.OPEN_HOUR 0) ∧
    (∀ dt : DateTime, BusinessHours.CLOSE_HOUR ≤ hourOf dt →
      BusinessHours.adjustNonStrict dt =
        replaceTime (dt + minutesPerDay) BusinessHours.OPEN_HOUR 0) := by
  refine ⟨?_, ?_, ?_, ?_⟩
  · intro result now
    unfold extract_postprocess_llm
    by_cases h : BusinessHours.is_within_hours
        (if result ≤ now then
          result + (if dayOf result = dayOf now then 7 else 1) * minutesPerDay
         else result) = true
    · simp only [h, if_true]
      exact of_decide_eq_true h
    · simp only [h, if_false, Bool.false_eq_true]
      exact BusinessHours.within_adjustNonStrict _
  · intro parsed now
    unfold fallback_datetime_extraction
    exact BusinessHours.within_adjustNonStrict _
  · intro dt hlt
    unfold BusinessHours.adjustNonStrict
    have hnw : BusinessHours.is_within_hours dt = false := by
      unfold BusinessHours.is_within_hours
      rw [decide_eq_false_iff_not]
      unfold BusinessHours.OPEN_HOUR at hlt ⊢
      unfold BusinessHours.CLOSE_HOUR
      omega
    rw [hnw]
    simp only [Bool.false_eq_true, if_false, hlt, if_true]
  · intro dt hge
    unfold BusinessHours.adjustNonStrict
    have hnw : BusinessHours.is_within_hours dt = false := by
      unfold BusinessHours.is_within_hours
      rw [decide_eq_false_iff_not]
      unfold BusinessHours.OPEN_HOUR
      unfold BusinessHours.CLOSE_HOUR at hge ⊢
      omega
    have hnlt : ¬ hourOf dt < BusinessHours.OPEN_HOUR := by
      unfold BusinessHours.OPEN_HOUR
      unfold BusinessHours.CLOSE_HOUR at hge
      omega
    rw [hnw]
    simp only [Bool.false_eq_true, if_false, hnlt]

theorem business_hours_clamp_witness :
    (BusinessHours.OPEN_HOUR ≤
        hourOf (extract_postprocess_llm (mkDateTime 2025 6 3 19 45) demoNow) ∧
      hourOf (extract_postprocess_llm (mkDateTime 2025 6 3 19 45) demoNow) <
        BusinessHours.CLOSE_HOUR) ∧
    BusinessHours.adjustNonStrict (mkDateTime 2025 6 3 7 15) =
      replaceTime (mkDateTime 2025 6 3 7 15) BusinessHours.OPEN_HOUR 0 ∧
    BusinessHours.adjustNonStrict (mkDateTime 2025 6 3 19 45) =
      replaceTime (mkDateTime 2025 6 3 19 45 + minutesPerDay)
        BusinessHours.OPEN_HOUR 0 :=
  ⟨business_hours_clamp.1 (mkDateTime 2025 6 3 19 45) demoNow,
   business_hours_clamp.2.2.1 (mkDateTime 2025 6 3 7 15) (by decide),
   business_hours_clamp.2.2.2 (mkDateTime 2025 6 3 19 45) (by decide)⟩

/-- Claim C10: the non-strict business-hours adjustment always succeeds,
lands within business hours, and is idempotent. -/
theorem adjust_business_hours_idempotent (dt : DateTime) :
    ∃ r, BusinessHours.adjust_to_business_hours dt false = .ok r ∧
      BusinessHours.OPEN_HOUR ≤ hourOf r ∧ hourOf r < BusinessHours.CLOSE_HOUR ∧
      BusinessHours.adjust_to_business_hours r false = .ok r := by
  refine ⟨BusinessHours.adjustNonStrict dt,
    BusinessHours.adjust_false_eq_nonStrict dt,
    (BusinessHours.within_adjustNonStrict dt).1,
    (BusinessHours.within_adjustNonStrict dt).2, ?_⟩
  have hwithin : BusinessHours.is_within_hours (BusinessHours.adjustNonStrict dt)
      = true := by
    unfold BusinessHours.is_within_hours
    rw [decide_eq_true_eq]
    exact BusinessHours.within_adjustNonStrict dt
  unfold BusinessHours.adjust_to_business_hours
  rw [hwithin]
  simp

/-- Claim C8: both weekday-resolution helpers return the next future
occurrence of the target weekday: the result has the target weekday, lies
strictly in the future, at most 7 days ahead, and if today already is the
target weekday the result is exactly 7 days ahead. -/
theorem next_weekday_future (now : DateTime) (weekday_target : Nat)
    (htarget : weekday_target < 7) :
    (weekdayOf (calculate_next_occurrence now weekday_target) = weekday_target ∧
     now + minutesPerDay ≤ calculate_next_occurrence now weekday_target ∧
     calculate_next_occurrence now weekday_target ≤ now + 7 * minutesPerDay ∧
     (weekdayOf now = weekday_target →
       calculate_next_occurrence now weekday_target = now + 7 * minutesPerDay)) ∧
    next_weekday now weekday_target = calculate_next_occurrence now weekday_target := by
  obtain ⟨now, rfl⟩ : ∃ x : ℕ, x = now := ⟨now, rfl⟩
  have hwd : weekdayOf now < 7 := Nat.mod_lt _ (by norm_num)
  have hstep : ∀ D : Nat, weekdayOf (now + D * minutesPerDay) =
      (weekdayOf now + D) % 7 := by
    intro D
    unfold weekdayOf dayOf minutesPerDay
    rw [Nat.add_mul_div_right _ _ (by norm_num : (0 : Nat) < 1440)]
    omega
  constructor
  · simp only [calculate_next_occurrence]
    by_cases h0 : (weekday_target + 7 - weekdayOf now) % 7 = 0
    · rw [if_pos h0]
      refine ⟨?_, ?_, ?_, fun _ => rfl⟩
      · rw [hstep]; omega
      · exact Nat.add_le_add_left (by norm_num [minutesPerDay]) now
      · exact le_refl _
    · rw [if_neg h0]
      have hD1 : 0 < (weekday_target + 7 - weekdayOf now) % 7 :=
        Nat.pos_of_ne_zero h0
      have hD7 : (weekday_target + 7 - weekdayOf now) % 7 ≤ 7 :=
        le_of_lt (Nat.mod_lt _ (by norm_num))
      refine ⟨?_, ?_, ?_, ?_⟩
      · rw [hstep]; omega
      · exact Nat.add_le_add_left (Nat.le_mul_of_pos_left minutesPerDay hD1) now
      · exact Nat.add_le_add_left (Nat.mul_le_mul_right minutesPerDay hD7) now
      · intro h
        rw [h] at h0
        exact absurd (by omega) h0
  · have hmul : (if (weekday_target : Int) - (weekdayOf now : Int) ≤ 0 then
          (weekday_target : Int) - (weekdayOf now : Int) + 7
        else (weekday_target : Int) - (weekdayOf now : Int)).toNat =
        (if (weekday_target + 7 - weekdayOf now) % 7 = 0 then 7
         else (weekday_target + 7 - weekdayOf now) % 7) := by
      by_cases h : (weekday_target : Int) - (weekdayOf now : Int) ≤ 0
      · rw [if_pos h]
        by_cases h2 : (weekday_target + 7 - weekdayOf now) % 7 = 0
        · rw [if_pos h2]; omega
        · rw [if_neg h2]; omega
      · rw [if_neg h]
        by_cases h2 : (weekday_target + 7 - weekdayOf now) % 7 = 0
        · rw [if_pos h2]; omega
        · rw [if_neg h2]; omega
    simp only [next_weekday, calculate_next_occurrence]
    rw [hmul]

theorem next_weekday_future_witness :
    weekdayOf (calculate_next_occurrence demoNow 0) = 0 ∧
    calculate_next_occurrence demoNow 0 = demoNow + 7 * minutesPerDay ∧
    next_weekday demoNow 0 = calculate_next_occurrence demoNow 0 :=
  ⟨(next_weekday_future demoNow 0 (by decide)).1.1,
   (next_weekday_future demoNow 0 (by decide)).1.2.2.2 (by decide),
   (next_weekday_future demoNow 0 (by decide)).2⟩

/-! ## Intent classification (NLPService._classify_intent)

The regex pattern table is embedded literally, in source (dict insertion)
order.  Regex matching itself is the Python `re` library, an external
capability: it enters as the parameter `rmatch pattern text`, and the
zero-shot classifier as the parameter `zeroShot`; the claim under study is
about the table-driven control flow, which holds for every matcher. -/

def intent_patterns : List (String × List String) :=
  [("Cancel a booking",
    ["(?i)\\b(?:cancel|remove|delete|terminate|abort|discard|void)\\s+(?:my\\s+)?(?:booking|reservation|appointment|schedule|session)\\b",
     "(?i)\\b(?:undo|revoke)\\s+(?:my\\s+)?(?:booking|reservation|appointment|schedule|session)\\b",
     "(?i)\\b(?:cancel|remove|delete|terminate|abort|discard|void)\\s+(?:my\\s+)?(?:booking|reservation|appointment|schedule|session)\\s+(?:for\\s+.+)$"]),
   ("List all bookings",
    ["(?i)\\b(?:list|show|display|view|see|get|fetch|present|give\\s+me)\\s+(?:all\\s+)?(?:my\\s+)?(?:bookings|reservations|appointments|schedules|sessions)\\b",
     "(?i)\\b(?:can\\s+you\\s+|please\\s+)?(?:list|show|display|view|see|get|fetch|present|give\\s+me)\\s+(?:all\\s+)?(?:my\\s+)?(?:bookings|reservations|appointments|schedules|sessions)\\b"]),
   ("Retrieve booking details",
    ["(?i)\\b(?:get|find|retrieve|access|look\\s+up)\\s+(?:the\\s+)?(?:details\\s+of\\s+)?(?:my\\s+)?(?:booking|reservation|appointment|schedule|session)\\b",
     "(?i)\\b(?:can\\s+you\\s+)?(?:get|find|retrieve|access|look\\s+up)\\s+(?:the\\s+)?(?:details\\s+of\\s+)?(?:my\\s+)?(?:booking|reservation|appointment|schedule|session)\\b"]),
   ("Create a booking",
    ["(?i)\\b(?:book|schedule|reserve|arrange|set\\s+up|make\\s+a)\\s+(?:an?\\s+)?(?:plumber|electrician|technician)\\b",
     "(?i)\\b(?:can\\s+you\\s+|please\\s+)?(?:book|schedule|reserve|arrange|set\\s+up|make\\s+a)\\s+(?:an?\\s+)?(?:plumber|electrician|technician)\\b",
     "(?i)\\b(?:book|schedule|reserve|arrange|set\\s+up|make\\s+a)\\s+(?:an?\\s+)?(?:plumber|electrician|technician)\\s+(?:for\\s+.+)$"])]

/-- `NLPService._classify_intent`: first pattern-table pass (first intent in
table order with any matching pattern wins at confidence 0.95), zero-shot
classifier only as fallback, with the confidence-threshold check. -/
def classify_intent (rmatch : String → String → Bool)
    (zeroShot : String → String × ℚ) (threshold : ℚ) (text : String) :
    Except String (String × ℚ) :=
  match intent_patterns.find?
      (fun row => row.2.any (fun pat => rmatch pat (lowerStr text))) with
  | some row => .ok (row.1, 19/20)
  | none =>
      if (zeroShot text).2 < threshold then .error "Intent confidence too low"
      else .ok ((zeroShot text).1, (zeroShot text).2)

/-- `List.find?` returns the first element satisfying the predicate. -/
theorem find?_first {α : Type} (p : α → Bool) (l : List α) (a : α)
    (h : l.find? p = some a) :
    ∃ k, ∃ hk : k < l.length, l.get ⟨k, hk⟩ = a ∧ p a = true ∧
      ∀ j (hj : j < k), p (l.get ⟨j, Nat.lt_trans hj hk⟩) = false := by
  induction l with
  | nil => cases h
  | cons x t ih =>
      cases hpx : p x with
      | true =>
          rw [List.find?_cons_of_pos _ hpx] at h
          obtain rfl : x = a := by injection h
          refine ⟨0, Nat.succ_pos _, rfl, hpx, ?_⟩
          intro j hj
          cases hj
      | false =>
          rw [List.find?_cons_of_neg _ (by simp [hpx])] at h
          obtain ⟨k, hk, hget, hpa, hprev⟩ := ih h
          refine ⟨k + 1, Nat.succ_lt_succ hk, hget, hpa, ?_⟩
          intro j hj
          cases j with
          | zero => exact hpx
          | succ j => exact hprev j (Nat.lt_of_succ_lt_succ hj)

/-- Claim C5: whenever any deterministic pattern matches the lower-cased
text, classification returns the first intent in table order having a
matching pattern, with confidence exactly 19/20 = 0.95, and the result does
not depend on the zero-shot classifier (it is not consulted). -/
theorem intent_pattern_first_match
    (rmatch : String → String → Bool) (z1 z2 : String → String × ℚ)
    (threshold : ℚ) (text : String)
    (hm : intent_patterns.any
      (fun row => row.2.any (fun pat => rmatch pat (lowerStr text))) = true) :
    ∃ k, ∃ hk : k < intent_patterns.length,
      (intent_patterns.get ⟨k, hk⟩).2.any
          (fun pat => rmatch pat (lowerStr text)) = true ∧
      (∀ j (hj : j < k), (intent_patterns.get ⟨j, Nat.lt_trans hj hk⟩).2.any
          (fun pat => rmatch pat (lowerStr text)) = false) ∧
      classify_intent rmatch z1 threshold text =
        .ok ((intent_patterns.get ⟨k, hk⟩).1, 19/20) ∧
      classify_intent rmatch z1 threshold text =
        classify_intent rmatch z2 threshold text := by
  have hfind : ∃ row, intent_patterns.find?
      (fun row => row.2.any (fun pat => rmatch pat (lowerStr text)))
        = some row := by
    cases hf : intent_patterns.find?
        (fun row => row.2.any (fun pat => rmatch pat (lowerStr text))) with
    | some row => exact ⟨row, rfl⟩
    | none =>
        rw [List.find?_eq_none] at hf
        rw [List.any_eq_true] at hm
        obtain ⟨row, hrow, hp⟩ := hm
        exact absurd hp (by simpa using hf row hrow)
  obtain ⟨row, hf⟩ := hfind
  obtain ⟨k, hk, hget, hpa, hprev⟩ := find?_first _ _ _ hf
  refine ⟨k, hk, by rw [hget]; exact hpa, hprev, ?_, ?_⟩
  · unfold classify_intent
    rw [hf, hget]
  · unfold classify_intent
    rw [hf]

def constMatch : String → String → Bool := fun _ _ => true

def zsA : String → String × ℚ := fun _ => ("Create a booking", 9/10)

def zsB : String → String × ℚ := fun _ => ("List all bookings", 1/10)

theorem intent_pattern_first_match_witness :
    ∃ k, ∃ hk : k < intent_patterns.length,
      (intent_patterns.get ⟨k, hk⟩).2.any
          (fun pat => constMatch pat (lowerStr "book a plumber")) = true ∧
      (∀ j (hj : j < k), (intent_patterns.get ⟨j, Nat.lt_trans hj hk⟩).2.any
          (fun pat => constMatch pat (lowerStr "book a plumber")) = false) ∧
      classify_intent constMatch zsA (2/5) "book a plumber" =
        .ok ((intent_patterns.get ⟨k, hk⟩).1, 19/20) ∧
      classify_intent constMatch zsA (2/5) "book a plumber" =
        classify_intent constMatch zsB (2/5) "book a plumber" :=
  intent_pattern_first_match constMatch zsA zsB (2/5) "book a plumber"
    (by decide)

/-! ## Booking-reference extraction (NLPService._extract_booking_id)

The three-stage extractor uses a fixed set of concrete regexes; they are
implemented here directly at character level (`re.search` = leftmost match,
`\b` = word boundary, `\d+` = maximal digit run).  The numeric patterns run
case-insensitively, so they are evaluated on the lower-cased text, which
leaves the captured digit groups unchanged. -/

/-- Python regex `\w` on the ASCII inputs: `[0-9a-zA-Z_]`. -/
def isWordChar (c : Char) : Bool := c.isAlphanum || c == '_'

def isHexDigitChar (c : Char) : Bool :=
  c.isDigit || ('a' ≤ c && c ≤ 'f') || ('A' ≤ c && c ≤ 'F')

/-- `\b` seen from the left: the previous character (if any) is a non-word
character, so a word may start here. -/
def boundaryOk (prev : Option Char) : Bool :=
  match prev with
  | none => true
  | some c => !isWordChar c

/-- Take exactly `n` hex digits. -/
def hexRun : Nat → List Char → Option (List Char × List Char)
  | 0, rest => some ([], rest)
  | _ + 1, [] => none
  | n + 1, c :: rest =>
      if isHexDigitChar c then
        match hexRun n rest with
        | some (m, r) => some (c :: m, r)
        | none => none
      else none

/-- Consume a single dash. -/
def expectDash : List Char → Option (List Char)
  | c :: r => if c = '-' then some r else none
  | [] => none

/-- `\b` seen from the right: the following character (if any) is a
non-word character, so a word may end here. -/
def wordEndOk (l : List Char) : Bool :=
  match l.head? with
  | none => true
  | some c => !isWordChar c

/-- One attempt of the UUID pattern
`\b[0-9a-fA-F]{8}-[0-9a-fA-F]{4}-[0-9a-fA-F]{4}-[0-9a-fA-F]{4}-[0-9a-fA-F]{12}\b`
at the current position (returning the whole group 0). -/
def matchUUIDAt (prev : Option Char) (l : List Char) : Option (List Char) :=
  if boundaryOk prev then
    (hexRun 8 l).bind fun p1 =>
    (expectDash p1.2).bind fun r1 =>
    (hexRun 4 r1).bind fun p2 =>
    (expectDash p2.2).bind fun r2 =>
    (hexRun 4 r2).bind fun p3 =>
    (expectDash p3.2).bind fun r3 =>
    (hexRun 4 r3).bind fun p4 =>
    (expectDash p4.2).bind fun r4 =>
    (hexRun 12 r4).bind fun p5 =>
    if wordEndOk p5.2 then
      some (p1.1 ++ '-' :: p2.1 ++ '-' :: p3.1 ++ '-' :: p4.1 ++ '-' :: p5.1)
    else none
  else none

/-- `re.search`: try the pattern at each position from the left, keeping
track of the preceding character for word boundaries. -/
def reSearch {α : Type} (m : Option Char → List Char → Option α) :
    Option Char → List Char → Option α
  | prev, [] => m prev []
  | prev, c :: rest =>
      match m prev (c :: rest) with
      | some x => some x
      | none => reSearch m (some c) rest

def startsWithL : List Char → List Char → Bool
  | [], _ => true
  | _ :: _, [] => false
  | a :: as, b :: bs => a == b && startsWithL as bs

/-- Python substring containment (`needle in hay`). -/
def containsSub (needle : List Char) : List Char → Bool
  | [] => needle.isEmpty
  | c :: rest => startsWithL needle (c :: rest) || containsSub needle rest

def skipSpaces (l : List Char) : List Char :=
  l.dropWhile (fun c => c.isWhitespace)

/-- Consume an exact literal, returning the remainder. -/
def stripLit : List Char → List Char → Option (List Char)
  | [], l => some l
  | _ :: _, [] => none
  | a :: as, b :: bs => if a == b then stripLit as bs else none

/-- `\s*#?\s*`: skip whitespace, an optional hash, and whitespace again. -/
def afterLabel (allowHash : Bool) (r1 : List Char) : List Char :=
  if allowHash then
    match skipSpaces r1 with
    | c :: t => if c = '#' then skipSpaces t else c :: t
    | [] => []
  else skipSpaces r1

/-- The captured maximal digit run `(\d+)`, with an optional trailing
word boundary. -/
def captureDigits (trailingWB : Bool) (r3 : List Char) : Option (List Char) :=
  if (r3.takeWhile (fun c => c.isDigit)).isEmpty then none
  else if trailingWB then
    (match (r3.dropWhile (fun c => c.isDigit)).head? with
     | none => some (r3.takeWhile (fun c => c.isDigit))
     | some c =>
         if isWordChar c then none else some (r3.takeWhile (fun c => c.isDigit)))
  else some (r3.takeWhile (fun c => c.isDigit))

/-- Match a literal followed by `\s*`, optionally `#` and `\s*`, then the
captured maximal digit run `(\d+)`; `requireWB`/`trailingWB` add the `\b`
of the fourth numeric pattern. -/
def matchLabeledAt (lit : List Char) (allowHash requireWB trailingWB : Bool)
    (prev : Option Char) (l : List Char) : Option (List Char) :=
  if requireWB && !boundaryOk prev then none
  else
    match stripLit lit l with
    | none => none
    | some r1 => captureDigits trailingWB (afterLabel allowHash r1)

/-- One attempt of `\b(\d+)\b` at the current position. -/
def matchBareAt (prev : Option Char) (l : List Char) : Option (List Char) :=
  if boundaryOk prev then captureDigits true l else none

/-- Stage 1: the UUID pattern over the raw text (group 0). -/
def find_uuid (text : String) : Option String :=
  (reSearch matchUUIDAt none text.data).map String.mk

/-- Stage 2: the labeled numeric patterns, in source order:
`booking\s*#?\s*(\d+)`, `id\s*#?\s*(\d+)`, `#\s*(\d+)`, `\bid\s*(\d+)\b`. -/
def find_labeled_number (text : String) : Option String :=
  match reSearch (matchLabeledAt "booking".data true false false) none
      (text.data.map asciiLowerChar) with
  | some n => some (String.mk n)
  | none =>
  match reSearch (matchLabeledAt "id".data true false false) none
      (text.data.map asciiLowerChar) with
  | some n => some (String.mk n)
  | none =>
  match reSearch (matchLabeledAt "#".data false false false) none
      (text.data.map asciiLowerChar) with
  | some n => some (String.mk n)
  | none =>
  match reSearch (matchLabeledAt "id".data false true true) none
      (text.data.map asciiLowerChar) with
  | some n => some (String.mk n)
  | none => none

def trigger_words : List String :=
  ["cancel", "booking", "retrieve", "find", "details"]

/-- `any(k in text_lower for k in [...])`. -/
def has_trigger_word (text : String) : Bool :=
  trigger_words.any (fun k => containsSub k.data (text.data.map asciiLowerChar))

/-- Stage 3: first standalone integer, `\b(\d+)\b`. -/
def find_bare_number (text : String) : Option String :=
  (reSearch matchBareAt none (text.data.map asciiLowerChar)).map String.mk

/-- `NLPService._extract_booking_id`. -/
def extract_booking_id (text : String) : Option String :=
  match find_uuid text with
  | some u => some u
  | none =>
    match find_labeled_number text with
    | some n => some n
    | none =>
      if has_trigger_word text then
        match find_bare_number text with
        | some n => some n
        | none => none
      else none

/-! ## Lemmas about the matchers -/

theorem hexRun_length : ∀ (n : Nat) (l : List Char) (p : List Char × List Char),
    hexRun n l = some p → p.1.length = n := by
  intro n
  induction n with
  | zero =>
      intro l p h
      unfold hexRun at h
      injection h with h
      rw [← h]
      rfl
  | succ n ih =>
      intro l p h
      cases l with
      | nil => cases h
      | cons c rest =>
          unfold hexRun at h
          by_cases hc : isHexDigitChar c = true
          · rw [if_pos hc] at h
            cases hrec : hexRun n rest with
            | none => rw [hrec] at h; cases h
            | some q =>
                rw [hrec] at h
                obtain ⟨m, r⟩ := q
                injection h with h
                rw [← h]
                simp only [List.length_cons]
                have := ih rest (m, r) hrec
                simpa using this
          · rw [if_neg hc] at h
            cases h

theorem matchUUIDAt_length (prev : Option Char) (l : List Char)
    (m : List Char) (h : matchUUIDAt prev l = some m) : m.length = 36 := by
  unfold matchUUIDAt at h
  by_cases hb : boundaryOk prev = true
  · rw [if_pos hb] at h
    simp only [Option.bind_eq_some] at h
    obtain ⟨p1, h1, r1, hd1, p2, h2, r2, hd2, p3, h3, r3, hd3, p4, h4,
      r4, hd4, p5, h5, hfin⟩ := h
    by_cases hw : wordEndOk p5.2 = true
    · rw [if_pos hw] at hfin
      injection hfin with hfin
      rw [← hfin]
      have e1 := hexRun_length 8 l p1 h1
      have e2 := hexRun_length 4 r1 p2 h2
      have e3 := hexRun_length 4 r2 p3 h3
      have e4 := hexRun_length 4 r3 p4 h4
      have e5 := hexRun_length 12 r4 p5 h5
      simp [List.length_append, e1, e2, e3, e4, e5]
    · rw [if_neg hw] at hfin
      cases hfin
  · rw [if_neg hb] at h
    cases h

theorem reSearch_inv {α : Type} (m : Option Char → List Char → Option α) :
    ∀ (prev : Option Char) (l : List Char) (x : α),
      reSearch m prev l = some x →
      ∃ prev' l', m prev' l' = some x := by
  intro prev l
  induction l generalizing prev with
  | nil => exact fun x h => ⟨prev, [], h⟩
  | cons c rest ih =>
      intro x h
      unfold reSearch at h
      cases hm : m prev (c :: rest) with
      | some y =>
          rw [hm] at h
          injection h with h
          exact ⟨prev, c :: rest, by rw [hm, h]⟩
      | none =>
          rw [hm] at h
          exact ih (some c) x h

theorem captureDigits_digits (trailingWB : Bool) (r3 ds : List Char)
    (h : captureDigits trailingWB r3 = some ds) :
    ds ≠ [] ∧ ∀ c ∈ ds, c.isDigit = true := by
  unfold captureDigits at h
  by_cases he : (r3.takeWhile (fun c => c.isDigit)).isEmpty = true
  · rw [if_pos he] at h; cases h
  · rw [if_neg he] at h
    have hds : ds = r3.takeWhile (fun c => c.isDigit) := by
      by_cases htw : trailingWB = true
      · rw [if_pos htw] at h
        cases hh : (r3.dropWhile (fun c => c.isDigit)).head? with
        | none =>
            rw [hh] at h
            dsimp only at h
            injection h with h
            rw [h]
        | some c =>
            rw [hh] at h
            dsimp only at h
            by_cases hwc : isWordChar c = true
            · rw [if_pos hwc] at h; cases h
            · rw [if_neg hwc] at h; injection h with h; rw [h]
      · rw [if_neg htw] at h; injection h with h; rw [h]
    subst hds
    refine ⟨by simpa [List.isEmpty_iff] using he, ?_⟩
    intro c hc
    exact List.mem_takeWhile_imp hc

theorem matchLabeledAt_digits (lit : List Char)
    (allowHash requireWB trailingWB : Bool) (prev : Option Char)
    (l ds : List Char)
    (h : matchLabeledAt lit allowHash requireWB trailingWB prev l = some ds) :
    ds ≠ [] ∧ ∀ c ∈ ds, c.isDigit = true := by
  unfold matchLabeledAt at h
  by_cases hw : (requireWB && !boundaryOk prev) = true
  · rw [if_pos hw] at h; cases h
  · rw [if_neg hw] at h
    cases hs : stripLit lit l with
    | none => rw [hs] at h; cases h
    | some r1 =>
        rw [hs] at h
        exact captureDigits_digits _ _ _ h

theorem matchBareAt_digits (prev : Option Char) (l ds : List Char)
    (h : matchBareAt prev l = some ds) :
    ds ≠ [] ∧ ∀ c ∈ ds, c.isDigit = true := by
  unfold matchBareAt at h
  by_cases hb : boundaryOk prev = true
  · rw [if_pos hb] at h
    exact captureDigits_digits _ _ _ h
  · rw [if_neg hb] at h; cases h

/-- Any digit string produced by `find_labeled_number` is a non-empty
string of decimal digits. -/
theorem find_labeled_number_digits (text : String) (n : String)
    (h : find_labeled_number text = some n) :
    n.data ≠ [] ∧ ∀ c ∈ n.data, c.isDigit = true := by
  unfold find_labeled_number at h
  cases h1 : reSearch (matchLabeledAt "booking".data true false false) none
      (text.data.map asciiLowerChar) with
  | some ds =>
      rw [h1] at h
      injection h with h
      obtain ⟨p', l', hp⟩ := reSearch_inv _ _ _ _ h1
      rw [← h]
      exact matchLabeledAt_digits _ _ _ _ _ _ _ hp
  | none =>
  rw [h1] at h
  cases h2 : reSearch (matchLabeledAt "id".data true false false) none
      (text.data.map asciiLowerChar) with
  | some ds =>
      rw [h2] at h
      injection h with h
      obtain ⟨p', l', hp⟩ := reSearch_inv _ _ _ _ h2
      rw [← h]
      exact matchLabeledAt_digits _ _ _ _ _ _ _ hp
  | none =>
  rw [h2] at h
  cases h3 : reSearch (matchLabeledAt "#".data false false false) none
      (text.data.map asciiLowerChar) with
  | some ds =>
      rw [h3] at h
      injection h with h
      obtain ⟨p', l', hp⟩ := reSearch_inv _ _ _ _ h3
      rw [← h]
      exact matchLabeledAt_digits _ _ _ _ _ _ _ hp
  | none =>
  rw [h3] at h
  cases h4 : reSearch (matchLabeledAt "id".data false true true) none
      (text.data.map asciiLowerChar) with
  | some ds =>
      rw [h4] at h
      injection h with h
      obtain ⟨p', l', hp⟩ := reSearch_inv _ _ _ _ h4
      rw [← h]
      exact matchLabeledAt_digits _ _ _ _ _ _ _ hp
  | none =>
      rw [h4] at h
      cases h

/-- Claim C6: booking-reference extraction follows the strict precedence
UUID, then labeled number, then bare standalone integer gated on a trigger
word, and otherwise returns nothing (the function is total: no error).
Stage-1 results are 36-character UUID-shaped strings; stage-2/3 results are
non-empty digit strings. -/
theorem booking_id_precedence (text : String) :
    (∀ u, find_uuid text = some u →
      extract_booking_id text = some u ∧ u.length = 36) ∧
    (find_uuid text = none → ∀ n, find_labeled_number text = some n →
      extract_booking_id text = some n ∧ n.data ≠ [] ∧
        ∀ c ∈ n.data, c.isDigit = true) ∧
    (find_uuid text = none → find_labeled_number text = none →
      has_trigger_word text = true →
      (extract_booking_id text = find_bare_number text ∧
       ∀ n, find_bare_number text = some n → n.data ≠ [] ∧
         ∀ c ∈ n.data, c.isDigit = true)) ∧
    (find_uuid text = none → find_labeled_number text = none →
      has_trigger_word text = false → extract_booking_id text = none) := by
  refine ⟨?_, ?_, ?_, ?_⟩
  · intro u hu
    constructor
    · unfold extract_booking_id
      rw [hu]
    · unfold find_uuid at hu
      cases hr : reSearch matchUUIDAt none text.data with
      | none => rw [hr] at hu; cases hu
      | some lu =>
          rw [hr] at hu
          injection hu with hu
          obtain ⟨p', l', hp⟩ := reSearch_inv _ _ _ _ hr
          have := matchUUIDAt_length _ _ _ hp
          rw [← hu]
          exact this
  · intro hu n hn
    refine ⟨?_, find_labeled_number_digits text n hn⟩
    unfold extract_booking_id
    rw [hu, hn]
  · intro hu hl ht
    constructor
    · unfold extract_booking_id
      rw [hu, hl, ht]
      simp only [if_true]
      cases hb : find_bare_number text <;> rfl
    · intro n hn
      unfold find_bare_number at hn
      cases hr : reSearch matchBareAt none (text.data.map asciiLowerChar) with
      | none => rw [hr] at hn; cases hn
      | some ds =>
          rw [hr] at hn
          injection hn with hn
          obtain ⟨p', l', hp⟩ := reSearch_inv _ _ _ _ hr
          rw [← hn]
          exact matchBareAt_digits _ _ _ hp
  · intro hu hl ht
    unfold extract_booking_id
    rw [hu, hl, ht]
    simp

theorem booking_id_precedence_witness :
    (extract_booking_id "Cancel booking b56a726a-4ec2-4681-8fd4-b51ff2c19c19"
        = some "b56a726a-4ec2-4681-8fd4-b51ff2c19c19" ∧
      ("b56a726a-4ec2-4681-8fd4-b51ff2c19c19" : String).length = 36) ∧
    (extract_booking_id "cancel booking 123" = some "123" ∧
      ("123" : String).data ≠ [] ∧
      ∀ c ∈ ("123" : String).data, c.isDigit = true) ∧
    (extract_booking_id "please find 42 things" =
        find_bare_number "please find 42 things") ∧
    extract_booking_id "hello 123 world" = none :=
  ⟨(booking_id_precedence
      "Cancel booking b56a726a-4ec2-4681-8fd4-b51ff2c19c19").1
      "b56a726a-4ec2-4681-8fd4-b51ff2c19c19" (by decide),
   (booking_id_precedence "cancel booking 123").2.1 (by decide) "123"
      (by decide),
   ((booking_id_precedence "please find 42 things").2.2.1 (by decide)
      (by decide) (by decide)).1,
   (booking_id_precedence "hello 123 world").2.2.2 (by decide) (by decide)
      (by decide)⟩

/-! ## NLPService._parse_time and its helpers -/

/-- The weekday table of `NLPService._extract_weekday`, in source (dict
insertion) order; the first key matching `\b<key>\b` wins. -/
def weekday_mapping : List (String × Nat) :=
  [("mon", 0), ("monday", 0), ("tue", 1), ("tues", 1), ("tuesday", 1),
   ("wed", 2), ("weds", 2), ("wednesday", 2), ("thu", 3), ("thur", 3),
   ("thurs", 3), ("thursday", 3), ("fri", 4), ("friday", 4), ("sat", 5),
   ("saturday", 5), ("sun", 6), ("sunday", 6)]

/-- `re.search(rf"\b{k}\b", text)` for a literal word `k`. -/
def hasWordBounded (kw : List Char) (text : List Char) : Bool :=
  (reSearch (fun prev l =>
    if boundaryOk prev && startsWithL kw l && wordEndOk (l.drop kw.length) then
      some ()
    else none) none text).isSome

/-- `NLPService._extract_weekday`. -/
def extract_weekday (text : String) : Option Nat :=
  (weekday_mapping.find?
    (fun p => hasWordBounded p.1.data ((lowerStr text).data))).map (fun p => p.2)

/-- After `m\.?` the regex requires `\b`.  If the optional dot is not taken
the boundary sits after the word character `m`, so it holds exactly when the
next character is absent or a non-word character; a leading dot is a
non-word character, so in that case the boundary always holds (whether or
not the dot is consumed). -/
def ampmEnd (l : List Char) : Bool :=
  match l with
  | c :: _ => if c = '.' then true else wordEndOk l
  | [] => true

/-- `\s*[ap]\.?m\.?\b`, the tail of the clock-time pattern after the
digits. -/
def ampmTail (l : List Char) : Bool :=
  match skipSpaces l with
  | c :: r1 =>
      if c = 'a' ∨ c = 'p' then
        (match r1 with
         | d :: r2 =>
             if d = '.' then
               (match r2 with
                | e :: r3 => if e = 'm' then ampmEnd r3 else false
                | [] => false)
             else if d = 'm' then ampmEnd r2 else false
         | [] => false)
      else false
  | [] => false

/-- One attempt of `\b(\d{1,2})\s*[ap]\.?m\.?\b` at the current position
(greedy two digits, with the regex backtrack to one digit). -/
def matchAmPmAt (prev : Option Char) (l : List Char) : Bool :=
  boundaryOk prev &&
  (match l with
   | c1 :: rest =>
       c1.isDigit &&
       (match rest with
        | c2 :: rest2 =>
            if c2.isDigit then (ampmTail rest2 || ampmTail rest)
            else ampmTail rest
        | [] => false)
   | [] => false)

/-- `re.search(r"\b(\d{1,2})\s*[ap]\.?m\.?\b", normalized)` as a test. -/
def hasAmPm (text : List Char) : Bool :=
  (reSearch (fun prev l => if matchAmPmAt prev l then some () else none)
    none text).isSome

/-- `re.search(r"[:.]\d{1,2}", normalized)` as a test. -/
def hasMinuteSep : List Char → Bool
  | [] => false
  | c :: rest =>
      (((c == ':') || (c == '.')) &&
        (match rest.head? with
         | some d => d.isDigit
         | none => false)) ||
      hasMinuteSep rest

/-- Step B of `_parse_time`: if a weekday is mentioned, override the date
portion of the fuzzy parse with the next occurrence of that weekday. -/
def parse_time_final1 (time_str : String) (dt_approx now : DateTime) : DateTime :=
  match extract_weekday time_str with
  | some idx =>
      replaceTime (next_weekday now idx) (hourOf dt_approx) (minuteOf dt_approx)
  | none => dt_approx

/-- Step C of `_parse_time`: zero the minutes for a bare `H am/pm`. -/
def parse_time_final2 (time_str : String) (dt_approx now : DateTime) : DateTime :=
  if hasAmPm ((lowerStr time_str).data) &&
      !hasMinuteSep ((lowerStr time_str).data) then
    zeroMinute (parse_time_final1 time_str dt_approx now)
  else parse_time_final1 time_str dt_approx now

/-- `NLPService._parse_time`.  `dt_approx` stands for
`dateutil.parser.parse(time_str, fuzzy=True, default=now)` (Step A). -/
def parse_time (time_str : String) (dt_approx now : DateTime) :
    Except String DateTime :=
  if parse_time_final2 time_str dt_approx now < now then
    if parse_time_final2 time_str dt_approx now + minutesPerDay < now then
      .error "Parsed time is still in the past."
    else .ok (parse_time_final2 time_str dt_approx now + minutesPerDay)
  else .ok (parse_time_final2 time_str dt_approx now)

theorem minuteOf_zeroMinute (t : Nat) : minuteOf (zeroMinute t) = 0 := by
  unfold minuteOf zeroMinute
  omega

/-! ## Claim theorems: minute handling (C9) -/

/-- Claim C9, corrected.  On the `NLPService._parse_time` path the claim
holds: a phrase containing `H am/pm` with no `[:.]MM` always resolves with
minute 0, whatever the fuzzy parser's anchor contributed.  On the
`DateTimeExtractor._fallback_datetime_extraction` path the minutes are
zeroed only when the business-hours clamp shifts the instant (second
conjunct); within business hours the fuzzy minutes survive (see the
counterexample). -/
theorem parse_time_minutes_zero :
    (∀ (time_str : String) (dt_approx now v : DateTime),
      hasAmPm ((lowerStr time_str).data) = true →
      hasMinuteSep ((lowerStr time_str).data) = false →
      parse_time time_str dt_approx now = .ok v → minuteOf v = 0) ∧
    (∀ dt : DateTime, BusinessHours.is_within_hours dt = false →
      minuteOf (BusinessHours.adjustNonStrict dt) = 0) := by
  constructor
  · intro time_str dt_approx now v ham hsep h
    have h2 : parse_time_final2 time_str dt_approx now =
        zeroMinute (parse_time_final1 time_str dt_approx now) := by
      unfold parse_time_final2
      rw [ham, hsep]
      simp
    have hm0 : minuteOf (parse_time_final2 time_str dt_approx now) = 0 := by
      rw [h2]
      exact minuteOf_zeroMinute _
    unfold parse_time at h
    by_cases hlt : parse_time_final2 time_str dt_approx now < now
    · rw [if_pos hlt] at h
      by_cases hlt2 : parse_time_final2 time_str dt_approx now + minutesPerDay < now
      · rw [if_pos hlt2] at h; cases h
      · rw [if_neg hlt2] at h
        injection h with h
        rw [← h, minuteOf_addDay, hm0]
    · rw [if_neg hlt] at h
      injection h with h
      rw [← h, hm0]
  · intro dt hout
    unfold BusinessHours.adjustNonStrict
    rw [hout]
    simp only [Bool.false_eq_true, if_false]
    by_cases hlt : hourOf dt < BusinessHours.OPEN_HOUR
    · rw [if_pos hlt]
      exact minuteOf_replaceTime _ _ _ (by norm_num)
    · rw [if_neg hlt]
      exact minuteOf_replaceTime _ _ _ (by norm_num)

theorem parse_time_minutes_zero_witness :
    minuteOf (replaceTime (mkDateTime 2025 6 2 10 27) 15 0) = 0 ∧
    minuteOf (BusinessHours.adjustNonStrict (mkDateTime 2025 6 2 19 45)) = 0 :=
  ⟨parse_time_minutes_zero.1 "3 pm"
      (replaceTime (mkDateTime 2025 6 2 10 27) 15 27)
      (mkDateTime 2025 6 2 10 27)
      (replaceTime (mkDateTime 2025 6 2 10 27) 15 0)
      (by decide) (by decide) (by decide),
   parse_time_minutes_zero.2 (mkDateTime 2025 6 2 19 45) (by decide)⟩

/-- Claim C9 as stated is false on the fuzzy-parse fallback path of the
DateTime Resolver.  For the phrase "3 pm" (an explicit `H am/pm` clock time
with no minutes, first two conjuncts) at current time 2025-06-02 10:27, the
fuzzy parse anchored at the current time yields 15:27 — hour from the
phrase, minute inherited from the anchor, the `dateutil` default-replacement
behaviour that `_parse_time`'s own comments describe ("3 PM" would otherwise
become 15:27).  `_fallback_datetime_extraction` then returns it unchanged,
because hour 15 is within business hours: the resolved minute is 27, not 0. -/
theorem fallback_minutes_inherited_cex :
    hasAmPm ((lowerStr "3 pm").data) = true ∧
    hasMinuteSep ((lowerStr "3 pm").data) = false ∧
    fallback_datetime_extraction
        (replaceTime (mkDateTime 2025 6 2 10 27) 15 27)
        (mkDateTime 2025 6 2 10 27) =
      replaceTime (mkDateTime 2025 6 2 10 27) 15 27 ∧
    minuteOf (fallback_datetime_extraction
        (replaceTime (mkDateTime 2025 6 2 10 27) 15 27)
        (mkDateTime 2025 6 2 10 27)) = 27 :=
  ⟨by decide, by decide, by decide, by decide⟩

end TechBooking
